import Mathlib

/-!
Verification development for the yatta live HLS/CMAF packager.

The definitions below are a shallow embedding of the Rust sources:
  * `src/utils.rs`   — `compute_av1_mime`, the AV1 codec-string derivation;
  * `src/main.rs`    — the master-playlist coordinator (`State`,
    `try_write_manifest`, `write_manifest`) and the codec report path of
    `utils::probe_encoder`;
  * `src/hlscmaf.rs` — the per-rendition stream publisher (`StreamState`,
    the appsink `new_sample` callback, `update_manifest`, `trim_segments`).

Machine integers are modelled as `Nat`/`Int` (no arithmetic in the embedded
code can overflow on the inputs the theorems quantify over); `chrono`
timestamps are modelled as nanoseconds since an arbitrary epoch (`Int`);
`gst::ClockTime` as nanoseconds (`Nat`); file/IO side effects are modelled
as explicit output events; panics (`unwrap`/`assert!`/`expect`) are
modelled as `Option.none`.
-/

/-! ### Decimal formatting (Rust `format!` `{}` / `{:02}` / `{:05}` on unsigned ints) -/

/-- Decimal digits of `n`, most significant first, fuel-driven so that the
definition is structurally recursive.  `fuel = n + 1` always suffices since
the argument is divided by 10 on each step. -/
def natToCharsAux : Nat → Nat → List Char
  | 0, _ => []
  | fuel + 1, n =>
    if n < 10 then [Nat.digitChar n]
    else natToCharsAux fuel (n / 10) ++ [Nat.digitChar (n % 10)]

/-- Decimal rendering of a `Nat`, as Rust `format!("{}", n)` produces. -/
def natToChars (n : Nat) : List Char := natToCharsAux (n + 1) n

/-- Zero-pad a digit string on the left to width `w` (Rust `{:0w}`). -/
def padZeros (w : Nat) (ds : List Char) : List Char :=
  List.replicate (w - ds.length) '0' ++ ds

/-- Rust `format!("{:02}", n)`. -/
def fmt02 (n : Nat) : List Char := padZeros 2 (natToChars n)

/-! ### `str::replace(pat, "")` (all non-overlapping occurrences, left to right) -/

/-- Model of Rust `str::replace(pat, "")`: scan left to right, removing each
non-overlapping occurrence of `pat` and continuing after it. -/
def dropAllOcc (pat : List Char) : List Char → List Char
  | [] => []
  | c :: rest =>
    if _h : 0 < pat.length ∧ pat.isPrefixOf (c :: rest) = true then
      dropAllOcc pat ((c :: rest).drop pat.length)
    else
      c :: dropAllOcc pat rest
termination_by s => s.length
decreasing_by
  · have hp := _h.1
    simp only [List.length_drop, List.length_cons]
    omega
  · simp only [List.length_cons]
    omega

/-! ### AV1 codec string (src/utils.rs, `compute_av1_mime`) -/

/-- The colorimetry information the Rust code extracts from
`gst_video::VideoColorimetry`: the ISO numbers of the primaries, transfer
and matrix (`to_iso()`), and whether the range is full (`Range0_255`). -/
structure Colorimetry where
  primaries : Nat
  transfer : Nat
  matrix : Nat
  fullRange : Bool
deriving DecidableEq

/-- `match (seq_profile, high_bitdepth, twelve_bit) { (2,1,1)=>12, (2,1,_)=>10,
(_,1,_)=>10, _=>8 }`, Rust match arms taken in order. -/
def bitDepth (p high twelve : Nat) : Nat :=
  if p = 2 ∧ high = 1 ∧ twelve = 1 then 12
  else if p = 2 ∧ high = 1 then 10
  else if high = 1 then 10
  else 8

/-- The base part `av01.{}.{:02}{}.{:02}` of the codec string built by
`compute_av1_mime` from bytes 1 and 2 of the configuration record. -/
def av1Base (b1 b2 : Nat) : List Char :=
  ['a', 'v', '0', '1', '.']
    ++ natToChars ((b1 >>> 5) &&& 7)                  -- seq_profile
    ++ ['.']
    ++ fmt02 (b1 &&& 31)                              -- seq_level_idx_0
    ++ (if b2 >>> 7 = 0 then ['M'] else ['H'])        -- seq_tier_0
    ++ ['.']
    ++ fmt02 (bitDepth ((b1 >>> 5) &&& 7) ((b2 >>> 6) &&& 1) ((b2 >>> 5) &&& 1))

/-- The color suffix `.{}.{}{}{}.{:02}.{:02}.{:02}.{}` appended when a
colorimetry is supplied. -/
def av1Suffix (b2 : Nat) (c : Colorimetry) : List Char :=
  ['.']
    ++ natToChars ((b2 >>> 4) &&& 1)                  -- monochrome
    ++ ['.']
    ++ natToChars ((b2 >>> 3) &&& 1)                  -- chroma_subsampling_x
    ++ natToChars ((b2 >>> 2) &&& 1)                  -- chroma_subsampling_y
    ++ natToChars
        (if (b2 >>> 3) &&& 1 = 1 ∧ (b2 >>> 2) &&& 1 = 1 then b2 &&& 3 else 0)
    ++ ['.']
    ++ fmt02 c.primaries
    ++ ['.']
    ++ fmt02 c.transfer
    ++ ['.']
    ++ fmt02 c.matrix
    ++ ['.']
    ++ natToChars (if c.fullRange then 1 else 0)      -- full_range

/-- The literal pattern `".0.110.01.01.01.0"` removed by the final
`.replace(".0.110.01.01.01.0", "")` in `compute_av1_mime`. -/
def av1DefaultSuffix : List Char :=
  ['.', '0', '.', '1', '1', '0', '.', '0', '1', '.', '0', '1', '.', '0', '1', '.', '0']

/-- `compute_av1_mime` (src/utils.rs lines 89-157).  The `assert!(len >= 3)`
is modelled as `none`; the `format!` calls are modelled as the concatenation
of their rendered fields (`av1Base`, `av1Suffix`); the trailing `.replace`
is `dropAllOcc`. -/
def compute_av1_mime (codecData : List Nat) (colorimetry : Option Colorimetry) :
    Option String :=
  match codecData with
  | _ :: b1 :: b2 :: _ =>
    some (String.mk (dropAllOcc av1DefaultSuffix
      (match colorimetry with
       | some c => av1Base b1 b2 ++ av1Suffix b2 c
       | none => av1Base b1 b2)))
  | _ => none

/-! #### Spec-side renderings of the AV1 base-string fields (for claim C5)

These follow the spec's words (bit positions of bytes 1 and 2, the
bit-depth table) rather than the code's shift/mask expressions, so that the
claim theorem genuinely compares the two. -/

/-- Per the spec: profile is byte 1, bits 7:5. -/
def spec_profile (b1 : Nat) : Nat :=
  (if b1.testBit 7 then 4 else 0) + (if b1.testBit 6 then 2 else 0) +
    (if b1.testBit 5 then 1 else 0)

/-- Per the spec: level is byte 1, bits 4:0. -/
def spec_level (b1 : Nat) : Nat :=
  (if b1.testBit 4 then 16 else 0) + (if b1.testBit 3 then 8 else 0) +
    (if b1.testBit 2 then 4 else 0) + (if b1.testBit 1 then 2 else 0) +
    (if b1.testBit 0 then 1 else 0)

/-- Per the spec: tier is `M` when byte 2 bit 7 is 0 and `H` when it is 1. -/
def spec_tier (b2 : Nat) : Char := if b2.testBit 7 then 'H' else 'M'

/-- Per the spec's bit-depth table: 12 for profile 2 with
high_bitdepth and twelve_bit set, 10 for profile 2 with only high_bitdepth,
10 for any other profile with high_bitdepth, 8 otherwise. -/
def spec_bitDepth (b1 b2 : Nat) : Nat :=
  if spec_profile b1 = 2 ∧ b2.testBit 6 ∧ b2.testBit 5 then 12
  else if b2.testBit 6 then 10
  else 8

/-- Per the spec: `av01.<profile>.<level><tier>.<bitdepth>` with the level
and bit depth zero-padded to two digits. -/
def spec_av1Base (b1 b2 : Nat) : List Char :=
  ['a', 'v', '0', '1', '.', Nat.digitChar (spec_profile b1), '.',
    Nat.digitChar (spec_level b1 / 10), Nat.digitChar (spec_level b1 % 10),
    spec_tier b2, '.',
    Nat.digitChar (spec_bitDepth b1 b2 / 10), Nat.digitChar (spec_bitDepth b1 b2 % 10)]

/-! ### Master playlist coordinator (src/main.rs `State`, src/utils.rs `probe_encoder`) -/

/-- `video::VideoStream`, the fields used by `write_manifest` (codec and
level only steer encoder construction, which is out of scope). -/
structure VideoStreamM where
  name : String
  bitrate : Nat
  width : Nat
  height : Nat
deriving DecidableEq

/-- `audio::AudioStream`. -/
structure AudioStreamM where
  name : String
  lang : String
  default : Bool
deriving DecidableEq

/-- `m3u8_rs::VariantStream`, the fields `write_manifest` sets. -/
structure VariantM where
  uri : String
  bandwidth : Nat
  codecs : Option String
  resolution : Option (Nat × Nat)
  audio : Option String
deriving DecidableEq

/-- `m3u8_rs::AlternativeMedia` (media_type is always Audio here), the
fields `write_manifest` sets. -/
structure AlternativeMediaM where
  uri : Option String
  groupId : String
  language : Option String
  name : String
  default : Bool
  autoselect : Bool
  channels : Option String
deriving DecidableEq

/-- `m3u8_rs::MasterPlaylist`, the fields `write_manifest` sets. -/
structure MasterPlaylistM where
  version : Option Nat
  variants : List VariantM
  alternatives : List AlternativeMediaM
  independentSegments : Bool
deriving DecidableEq

/-- `main.rs` `State` (the `path` field only names the output file). -/
structure CoordState where
  videoStreams : List VideoStreamM
  audioStreams : List AudioStreamM
  allMimes : List (String × String)
  wroteManifest : Bool
deriving DecidableEq

/-- `HashMap::insert`: replace the value of an existing key, else add the
entry.  The map is modelled as a key-unique association list; only `len`,
`get` and `insert` are used by the code. -/
def insertMime (m : List (String × String)) (k v : String) : List (String × String) :=
  if m.any (fun p => p.1 == k) then
    m.map (fun p => if p.1 == k then (k, v) else p)
  else
    m ++ [(k, v)]

/-- `HashMap::get`. -/
def lookupMime (m : List (String × String)) (k : String) : Option String :=
  (m.find? (fun p => p.1 == k)).map (·.2)

/-- The `MasterPlaylist` literal built by `State::write_manifest`
(src/main.rs lines 62-108). -/
def buildMasterPlaylist (s : CoordState) : MasterPlaylistM :=
  { version := some 7
    variants := s.videoStreams.map (fun stream =>
      { uri := stream.name ++ "/manifest.m3u8"
        bandwidth := stream.bitrate
        codecs := lookupMime s.allMimes stream.name
        resolution := some (stream.width, stream.height)
        audio := some "audio" })
    alternatives := s.audioStreams.map (fun stream =>
      { uri := some (stream.name ++ "/manifest.m3u8")
        groupId := "audio"
        language := some stream.lang
        name := stream.name
        default := stream.default
        autoselect := stream.default
        channels := some "2" })
    independentSegments := true }

/-- `State::write_manifest`: build the playlist, publish it (modelled as
returning it), then set `wrote_manifest = true`. -/
def writeManifest (s : CoordState) : CoordState × MasterPlaylistM :=
  ({ s with wroteManifest := true }, buildMasterPlaylist s)

/-- `State::try_write_manifest` (src/main.rs lines 52-59). -/
def tryWriteManifest (s : CoordState) : CoordState × Option MasterPlaylistM :=
  if s.wroteManifest || s.allMimes.length < s.videoStreams.length + s.audioStreams.length then
    (s, none)
  else
    ((writeManifest s).1, some (writeManifest s).2)

/-- One codec report, as delivered by `utils::probe_encoder` on a caps
event (src/utils.rs lines 35-37): insert the mime under the rendition
name, then `try_write_manifest`. -/
def reportCodec (s : CoordState) (name mime : String) : CoordState × Option MasterPlaylistM :=
  tryWriteManifest { s with allMimes := insertMime s.allMimes name mime }

/-- Deliver a sequence of codec reports; collect every emitted master
playlist. -/
def runReports (s : CoordState) : List (String × String) → CoordState × List MasterPlaylistM
  | [] => (s, [])
  | r :: rs =>
    let step := reportCodec s r.1 r.2
    let rest := runReports step.1 rs
    (rest.1, step.2.toList ++ rest.2)

/-! ### Stream publisher (src/hlscmaf.rs) -/

/-- `hlscmaf::Segment`: `date_time` is a `chrono::DateTime<Utc>` modelled
as nanoseconds since the epoch, `duration` a `gst::ClockTime` in
nanoseconds. -/
structure Segment where
  dateTime : Int
  duration : Nat
  path : String
deriving DecidableEq

/-- `hlscmaf::UnreffedSegment`. -/
structure UnreffedSegment where
  removalTime : Int
  path : String
deriving DecidableEq

/-- `hlscmaf::StreamState` (publisher, stream_name and path are IO
plumbing; `segments` and `trimmed_segments` are `VecDeque`s with the front
at the list head). -/
structure StreamState where
  segments : List Segment
  trimmedSegments : List UnreffedSegment
  startDateTime : Option Int
  startTime : Option Nat
  mediaSequence : Nat
  segmentIndex : Nat
deriving DecidableEq

/-- The `UnreffedSegment` pushed for an evicted segment:
`removal_time = date_time + 20s` (src/hlscmaf.rs lines 245-255). -/
def toUnreffed (seg : Segment) : UnreffedSegment :=
  ⟨seg.dateTime + 20000000000, seg.path⟩

/-- Result of the eviction loop of `trim_segments`. -/
structure EvictResult where
  segments : List Segment
  mediaSequence : Nat
  trimmed : List UnreffedSegment
  evicted : List Segment
deriving DecidableEq

/-- `while state.segments.len() > 5 { pop_front; media_sequence += 1;
trimmed_segments.push_back(...) }` (src/hlscmaf.rs lines 240-256).  Also
returns the popped segments, oldest first. -/
def evictLoop (segs : List Segment) (ms : Nat) (tr : List UnreffedSegment) : EvictResult :=
  match segs with
  | [] => ⟨[], ms, tr, []⟩
  | seg :: rest =>
    if (seg :: rest).length > 5 then
      let r := evictLoop rest (ms + 1) (tr ++ [toUnreffed seg])
      { r with evicted := seg :: r.evicted }
    else
      ⟨seg :: rest, ms, tr, []⟩

/-- The deletion loop of `trim_segments` (src/hlscmaf.rs lines 258-272):
pop and delete queue entries from the front while
`removal_time < segments.front().unwrap().date_time`, stopping at the
first entry that is not yet safe.  `oldest? = none` models the panic of
`segments.front().unwrap()` on an empty window (reached only if the queue
is non-empty).  Returns the remaining queue and the deleted file names in
deletion order. -/
def deleteLoop (oldest? : Option Int) :
    List UnreffedSegment → List String → Option (List UnreffedSegment × List String)
  | [], acc => some ([], acc)
  | u :: rest, acc =>
    match oldest? with
    | none => none
    | some d =>
      if u.removalTime < d then
        deleteLoop oldest? rest (acc ++ [u.path])
      else
        some (u :: rest, acc)

/-- `trim_segments` (src/hlscmaf.rs lines 235-273): evict, then delete
expired files.  Returns the new state, the evicted segments and the
deleted file names; `none` models the `unwrap` panic. -/
def trimSegments (s : StreamState) : Option (StreamState × List Segment × List String) :=
  let r := evictLoop s.segments s.mediaSequence s.trimmedSegments
  match deleteLoop (r.segments.head?.map (·.dateTime)) r.trimmed [] with
  | none => none
  | some (q, del) =>
    let s' : StreamState :=
      { s with segments := r.segments
               mediaSequence := r.mediaSequence
               trimmedSegments := q }
    some (s', r.evicted, del)

/-- `m3u8_rs::MediaSegment`, the fields `update_manifest` sets.  The Rust
code stores the duration as `f32` seconds (`seconds_f32()` =
nanoseconds / 1e9); we idealize the `f32` as the exact value and keep it in
its nanosecond numerator, an injective encoding. -/
structure MediaSegmentM where
  uri : String
  durationNs : Nat
  map : Option String
  programDateTime : Option Int
deriving DecidableEq

/-- `m3u8_rs::MediaPlaylist`, the fields `update_manifest` sets.  The
`target_duration` `f32` always holds a whole number of seconds
(`...ceil()`), kept here as that `Nat`. -/
structure MediaPlaylistM where
  version : Option Nat
  targetDuration : Nat
  mediaSequence : Nat
  segments : List MediaSegmentM
  endList : Bool
  iFramesOnly : Bool
  independentSegments : Bool
deriving DecidableEq

/-- The `MediaPlaylist` literal built by `update_manifest`
(src/hlscmaf.rs lines 187-223): `target_duration` is the newest (back)
segment's duration in seconds, ceiled (`map_or(0f32, ...)` on an empty
window) — `(ns + 1e9 - 1) / 1e9` is the ceiling of `ns / 1e9`;
`EXT-X-MAP "init.mp4"` and the program date time only on entry 0. -/
def buildPlaylist (s : StreamState) : MediaPlaylistM :=
  { version := some 7
    targetDuration :=
      match s.segments.getLast? with
      | none => 0
      | some v => (v.duration + 1000000000 - 1) / 1000000000
    mediaSequence := s.mediaSequence
    segments := s.segments.enum.map (fun p =>
      { uri := p.2.path
        durationNs := p.2.duration
        map := if p.1 = 0 then some "init.mp4" else none
        programDateTime := if p.1 = 0 then some p.2.dateTime else none })
    endList := false
    iFramesOnly := false
    independentSegments := true }

/-- `update_manifest` (src/hlscmaf.rs lines 180-233): trim, then build and
publish the playlist. -/
def updateManifest (s : StreamState) :
    Option (StreamState × List Segment × List String × MediaPlaylistM) :=
  match trimSegments s with
  | none => none
  | some (s', ev, del) => some (s', ev, del, buildPlaylist s')

/-- One `gst::Buffer` of a buffer list: its flags, its running-time pts
(the value `segment.to_running_time(first.pts())` yields), its duration
and its mapped bytes. -/
structure BufferM where
  delta : Bool
  discont : Bool
  header : Bool
  pts : Nat
  duration : Nat
  payload : List Nat
deriving DecidableEq

/-- The external clock reads the callback performs when it computes the
one-time wall-clock anchor: `Utc::now()` (ns since epoch),
`sink.clock().time()` and `sink.base_time()` (ns). -/
structure ClockReads where
  nowUtc : Int
  nowGst : Nat
  baseTime : Nat
deriving DecidableEq

/-- One fragment group delivered to the appsink callback. -/
structure GroupInput where
  buffers : List BufferM
  clock : ClockReads
deriving DecidableEq

/-- The artifacts one callback invocation publishes/deletes. -/
structure StepOutput where
  publishedHeader : Option (String × List Nat)
  publishedSegment : Option (String × List Nat)
  publishedManifest : Option MediaPlaylistM
  evicted : List Segment
  deleted : List String
deriving DecidableEq

/-- The part of the appsink callback after the media-header block
(src/hlscmaf.rs lines 93-171), operating on the possibly shortened buffer
list: if the list became empty the callback returns (pure header update);
otherwise the remaining first buffer must carry HEADER, the clock anchors
are established once, the buffers are concatenated and published as the
next segment, and the manifest is updated. -/
def processMedia (s : StreamState) (clock : ClockReads) (hdrOut : Option (String × List Nat)) :
    List BufferM → Option (StreamState × StepOutput)
  | [] => some (s, ⟨hdrOut, none, none, [], []⟩)
  | first2 :: rest2 =>
    if !first2.header then none
    else
      let pts := first2.pts
      let startTime := s.startTime.getD pts
      let sdt? : Option Int :=
        match s.startDateTime with
        | some d => some d
        | none =>
          -- now_gst.checked_sub(pts + base_time).unwrap()
          if clock.nowGst < pts + clock.baseTime then none
          else some (clock.nowUtc - ((clock.nowGst - (pts + clock.baseTime) : Nat) : Int))
      match sdt? with
      | none => none
      | some sdt =>
        let contents := ((first2 :: rest2).map (·.payload)).flatten
        let basename := String.mk (padZeros 5 (natToChars s.segmentIndex)) ++ ".mp4"
        -- pts.opt_checked_sub(start_time).unwrap().unwrap()
        if pts < startTime then none
        else
          let dateTime := sdt + ((pts - startTime : Nat) : Int)
          let s1 : StreamState :=
            { s with startTime := some startTime
                     startDateTime := some sdt
                     segmentIndex := s.segmentIndex + 1
                     segments := s.segments ++ [⟨dateTime, first2.duration, basename⟩] }
          match updateManifest s1 with
          | none => none
          | some (s2, ev, del, pl) =>
            some (s2, ⟨hdrOut, some (basename, contents), some pl, ev, del⟩)

/-- The appsink `new_sample` callback of `hlscmaf::setup`
(src/hlscmaf.rs lines 59-172).  `none` models the assertion/`unwrap`
panics (empty list, DELTA first buffer, missing HEADER, negative clock
differences).  A first buffer with DISCONT+HEADER is published as
`init.mp4` and removed from the list before the media path runs. -/
def processGroup (s : StreamState) (g : GroupInput) : Option (StreamState × StepOutput) :=
  match g.buffers with
  | [] => none
  | first :: restBufs =>
    if first.delta then none
    else if first.discont && first.header then
      processMedia s g.clock (some ("init.mp4", first.payload)) restBufs
    else
      processMedia s g.clock none (first :: restBufs)

/-- Deliver a sequence of fragment groups, collecting each step's output. -/
def runGroups (s : StreamState) : List GroupInput → Option (StreamState × List StepOutput)
  | [] => some (s, [])
  | g :: gs =>
    match processGroup s g with
    | none => none
    | some (s', out) =>
      match runGroups s' gs with
      | none => none
      | some (s'', outs) => some (s'', out :: outs)

/-- The state `hlscmaf::setup` creates (src/hlscmaf.rs lines 45-55). -/
def initState : StreamState := ⟨[], [], none, none, 0, 0⟩

/-! ### Concrete data used by witnesses and counterexamples -/

/-- A single media fragment: segment-start HEADER, pts 0, 2s duration. -/
def exBuf : BufferM := ⟨false, false, true, 0, 2000000000, [1, 2, 3]⟩

/-- Clock reads for the anchor computation of the first fragment. -/
def exClock : ClockReads := ⟨1000, 500, 100⟩

/-- A one-buffer fragment group. -/
def exGroup : GroupInput := ⟨[exBuf], exClock⟩

/-- The segment the group above produces. -/
def exSeg : Segment := ⟨600, 2000000000, "00000.mp4"⟩

/-- The playlist published after processing `exGroup` from `initState`. -/
def exPlaylist : MediaPlaylistM :=
  ⟨some 7, 2, 0, [⟨"00000.mp4", 2000000000, some "init.mp4", some 600⟩], false, false, true⟩

/-- The publisher state after processing `exGroup` from `initState`. -/
def exStateAfter : StreamState := ⟨[exSeg], [], some 600, some 0, 0, 1⟩

/-- The step output of processing `exGroup` from `initState`. -/
def exOutput : StepOutput := ⟨none, some ("00000.mp4", [1, 2, 3]), some exPlaylist, [], []⟩

/-- A six-segment window (one over the window bound) of 2s segments. -/
def c3Segs : List Segment :=
  [⟨0, 2000000000, "00000.mp4"⟩, ⟨2000000000, 2000000000, "00001.mp4"⟩,
   ⟨4000000000, 2000000000, "00002.mp4"⟩, ⟨6000000000, 2000000000, "00003.mp4"⟩,
   ⟨8000000000, 2000000000, "00004.mp4"⟩, ⟨10000000000, 2000000000, "00005.mp4"⟩]

/-- A six-segment window reached later in a stream, with two pending
deletions already queued (removal times 21s and 26s). -/
def c4State : StreamState :=
  ⟨[⟨25000000000, 2000000000, "00007.mp4"⟩, ⟨27000000000, 2000000000, "00008.mp4"⟩,
    ⟨29000000000, 2000000000, "00009.mp4"⟩, ⟨31000000000, 2000000000, "00010.mp4"⟩,
    ⟨33000000000, 2000000000, "00011.mp4"⟩, ⟨35000000000, 2000000000, "00012.mp4"⟩],
   [⟨21000000000, "00005.mp4"⟩, ⟨26000000000, "00006.mp4"⟩],
   some 0, some 0, 7, 13⟩

/-- The state `trimSegments` produces from `c4State`. -/
def c4StateAfter : StreamState :=
  ⟨[⟨27000000000, 2000000000, "00008.mp4"⟩, ⟨29000000000, 2000000000, "00009.mp4"⟩,
    ⟨31000000000, 2000000000, "00010.mp4"⟩, ⟨33000000000, 2000000000, "00011.mp4"⟩,
    ⟨35000000000, 2000000000, "00012.mp4"⟩],
   [⟨45000000000, "00007.mp4"⟩], some 0, some 0, 8, 13⟩

/-- The segment evicted from `c4State`. -/
def c4Evicted : List Segment := [⟨25000000000, 2000000000, "00007.mp4"⟩]

/-- The oldest segment remaining after trimming `c4State`. -/
def c4Front : Segment := ⟨27000000000, 2000000000, "00008.mp4"⟩

/-- A coordinator state whose master playlist has already been written. -/
def c1Ex : CoordState :=
  ⟨[⟨"av1_0", 1024000, 256, 144⟩], [⟨"audio_0", "en", true⟩],
   [("av1_0", "av01.0.00M.08"), ("audio_0", "mp4a.40.2")], true⟩

/-- A coordinator state where the expected count is reached although the
single video rendition has no codec entry. -/
def c10Ex : CoordState :=
  ⟨[⟨"av1_0", 1024000, 256, 144⟩], [], [("ghost", "avc1.64001f")], false⟩

/-! ## Helper lemmas: decimal formatting -/

theorem natToCharsAux_small (fuel n : Nat) (hf : 0 < fuel) (h : n < 10) :
    natToCharsAux fuel n = [Nat.digitChar n] := by
  cases fuel with
  | zero => omega
  | succ f => simp [natToCharsAux, h]

theorem natToChars_lt10 (n : Nat) (h : n < 10) : natToChars n = [Nat.digitChar n] :=
  natToCharsAux_small _ _ (by omega) h

theorem fmt02_eq (n : Nat) (h : n < 100) :
    fmt02 n = [Nat.digitChar (n / 10), Nat.digitChar (n % 10)] := by
  by_cases h10 : n < 10
  · have hd : n / 10 = 0 := Nat.div_eq_of_lt h10
    have hm : n % 10 = n := Nat.mod_eq_of_lt h10
    rw [fmt02, natToChars_lt10 n h10]
    simp [padZeros, hd, hm]
    decide
  · rw [fmt02, natToChars]
    have : natToCharsAux (n + 1) n = natToCharsAux n (n / 10) ++ [Nat.digitChar (n % 10)] := by
      simp [natToCharsAux, h10]
    rw [this, natToCharsAux_small n (n / 10) (by omega) (by omega)]
    simp [padZeros]

theorem digitChar_ne_dot (n : Nat) (h : n < 10) : Nat.digitChar n ≠ '.' := by
  interval_cases n <;> decide

/-! ## Helper lemmas: `dropAllOcc` -/

theorem dropAllOcc_nil (pat : List Char) : dropAllOcc pat [] = [] := by
  simp [dropAllOcc]

theorem dropAllOcc_cons_neg (pat : List Char) (c : Char) (rest : List Char)
    (h : ¬ (pat.isPrefixOf (c :: rest) = true)) :
    dropAllOcc pat (c :: rest) = c :: dropAllOcc pat rest := by
  rw [dropAllOcc, dif_neg]
  tauto

theorem dropAllOcc_cons_pos (pat : List Char) (c : Char) (rest : List Char)
    (h0 : 0 < pat.length) (h : pat.isPrefixOf (c :: rest) = true) :
    dropAllOcc pat (c :: rest) = dropAllOcc pat ((c :: rest).drop pat.length) := by
  rw [dropAllOcc, dif_pos ⟨h0, h⟩]

theorem dropAllOcc_short (pat s : List Char) (h : s.length < pat.length) :
    dropAllOcc pat s = s := by
  induction s with
  | nil => exact dropAllOcc_nil pat
  | cons c rest ih =>
    rw [dropAllOcc_cons_neg]
    · rw [ih (by simp only [List.length_cons] at h; omega)]
    · intro hpre
      have hle := List.IsPrefix.length_le ( List.isPrefixOf_iff_prefix.mp hpre)
      omega

theorem dropAllOcc_self (pat : List Char) (h : 0 < pat.length) :
    dropAllOcc pat pat = [] := by
  cases pat with
  | nil => simp at h
  | cons c rest =>
    rw [dropAllOcc_cons_pos _ _ _ h ( List.isPrefixOf_iff_prefix.mpr (List.prefix_refl _))]
    rw [List.drop_length, dropAllOcc_nil]

theorem dropAllOcc_append_no_occ (pat a b : List Char)
    (h : ∀ i, i < a.length → ¬ (pat.isPrefixOf ((a ++ b).drop i) = true)) :
    dropAllOcc pat (a ++ b) = a ++ dropAllOcc pat b := by
  induction a with
  | nil => simp
  | cons c a' ih =>
    have h0 := h 0 (by simp)
    simp only [List.drop_zero, List.cons_append] at h0
    have hrec : dropAllOcc pat (a' ++ b) = a' ++ dropAllOcc pat b := by
      apply ih
      intro i hi
      have := h (i + 1) (by simp only [List.length_cons]; omega)
      simpa using this
    rw [List.cons_append, dropAllOcc_cons_neg _ _ _ h0, hrec]
    simp

/-- The default-suffix pattern occurs in `base ++ sfx` (13 structurally
constrained characters followed by a 17-character suffix) only if it is the
suffix itself, so the `replace` either removes exactly the suffix or leaves
the string unchanged. -/
theorem av1_dropAllOcc_main
    (d1 d2 d3 d4 d5 t : Char) (sfx : List Char)
    (h1 : d1 ≠ '.') (h2 : d2 ≠ '.') (h3 : d3 ≠ '.') (h4 : d4 ≠ '.') (h5 : d5 ≠ '.')
    (ht0 : t ≠ '.') (ht : t ≠ '0') (hs : sfx.length = 17) :
    dropAllOcc av1DefaultSuffix
      (['a', 'v', '0', '1', '.', d1, '.', d2, d3, t, '.', d4, d5] ++ sfx)
    = if sfx = av1DefaultSuffix
      then ['a', 'v', '0', '1', '.', d1, '.', d2, d3, t, '.', d4, d5]
      else ['a', 'v', '0', '1', '.', d1, '.', d2, d3, t, '.', d4, d5] ++ sfx := by
  have hpat : (0 : Nat) < av1DefaultSuffix.length := by decide
  have hpatlen : av1DefaultSuffix.length = 17 := by decide
  have notOcc : ∀ i, i < 13 →
      ¬ (av1DefaultSuffix.isPrefixOf
          ((['a', 'v', '0', '1', '.', d1, '.', d2, d3, t, '.', d4, d5] ++ sfx).drop i) = true) := by
    intro i hi
    interval_cases i <;>
      simp [av1DefaultSuffix, List.isPrefixOf, Ne.symm h1, Ne.symm h2, Ne.symm h3,
        Ne.symm h4, Ne.symm h5, Ne.symm ht0, Ne.symm ht]
  by_cases hd : sfx = av1DefaultSuffix
  · subst hd
    rw [dropAllOcc_append_no_occ _ _ _ (by simpa using notOcc), dropAllOcc_self _ hpat]
    simp
  · have happ : (['a', 'v', '0', '1', '.', d1, '.', d2, d3, t, '.', d4, d5] ++ sfx)
        = (['a', 'v', '0', '1', '.', d1, '.', d2, d3, t, '.', d4, d5] ++ sfx) ++ [] := by simp
    rw [happ, dropAllOcc_append_no_occ _ _ _ ?_, dropAllOcc_nil]
    · simp [hd]
    · intro i hi
      simp only [List.append_nil]
      simp only [List.length_append, List.length_cons, List.length_nil, hs] at hi
      by_cases hlt : i < 13
      · exact notOcc i hlt
      · by_cases h13 : i = 13
        · subst h13
          have hdrop : (['a', 'v', '0', '1', '.', d1, '.', d2, d3, t, '.', d4, d5] ++ sfx).drop 13
              = sfx := by
            have h13len : (13 : Nat)
                = (['a', 'v', '0', '1', '.', d1, '.', d2, d3, t, '.', d4, d5] : List Char).length := by
              simp
            rw [h13len, List.drop_left]
          rw [hdrop]
          intro hpre
          have heq := List.IsPrefix.eq_of_length ( List.isPrefixOf_iff_prefix.mp hpre)
            (by rw [hpatlen, hs])
          exact hd heq.symm
        · intro hpre
          have hle := List.IsPrefix.length_le ( List.isPrefixOf_iff_prefix.mp hpre)
          rw [List.length_drop] at hle
          simp only [List.length_append, List.length_cons, List.length_nil, hs] at hle
          omega

/-! ## Helper lemmas: shape of the AV1 base string and color suffix -/

theorem bitDepth_lt (p high twelve : Nat) : bitDepth p high twelve < 100 := by
  unfold bitDepth
  split_ifs <;> norm_num

theorem av1Base_shape (b1 b2 : Nat) :
    av1Base b1 b2 =
      ['a', 'v', '0', '1', '.', Nat.digitChar ((b1 >>> 5) &&& 7), '.',
        Nat.digitChar ((b1 &&& 31) / 10), Nat.digitChar ((b1 &&& 31) % 10),
        (if b2 >>> 7 = 0 then 'M' else 'H'), '.',
        Nat.digitChar (bitDepth ((b1 >>> 5) &&& 7) ((b2 >>> 6) &&& 1) ((b2 >>> 5) &&& 1) / 10),
        Nat.digitChar (bitDepth ((b1 >>> 5) &&& 7) ((b2 >>> 6) &&& 1) ((b2 >>> 5) &&& 1) % 10)] := by
  have hp : (b1 >>> 5) &&& 7 < 10 := lt_of_le_of_lt Nat.and_le_right (by norm_num)
  have hl : b1 &&& 31 < 100 := lt_of_le_of_lt Nat.and_le_right (by norm_num)
  rw [av1Base, natToChars_lt10 _ hp, fmt02_eq _ hl, fmt02_eq _ (bitDepth_lt _ _ _)]
  by_cases hc : b2 >>> 7 = 0 <;> simp [hc]

theorem av1Suffix_shape (b2 : Nat) (c : Colorimetry)
    (hp : c.primaries < 100) (ht : c.transfer < 100) (hm : c.matrix < 100) :
    av1Suffix b2 c =
      ['.', Nat.digitChar ((b2 >>> 4) &&& 1), '.', Nat.digitChar ((b2 >>> 3) &&& 1),
        Nat.digitChar ((b2 >>> 2) &&& 1),
        Nat.digitChar (if (b2 >>> 3) &&& 1 = 1 ∧ (b2 >>> 2) &&& 1 = 1 then b2 &&& 3 else 0), '.',
        Nat.digitChar (c.primaries / 10), Nat.digitChar (c.primaries % 10), '.',
        Nat.digitChar (c.transfer / 10), Nat.digitChar (c.transfer % 10), '.',
        Nat.digitChar (c.matrix / 10), Nat.digitChar (c.matrix % 10), '.',
        Nat.digitChar (if c.fullRange then 1 else 0)] := by
  have hmono : (b2 >>> 4) &&& 1 < 10 := lt_of_le_of_lt Nat.and_le_right (by norm_num)
  have hcx : (b2 >>> 3) &&& 1 < 10 := lt_of_le_of_lt Nat.and_le_right (by norm_num)
  have hcy : (b2 >>> 2) &&& 1 < 10 := lt_of_le_of_lt Nat.and_le_right (by norm_num)
  have hcpos : (if (b2 >>> 3) &&& 1 = 1 ∧ (b2 >>> 2) &&& 1 = 1 then b2 &&& 3 else 0) < 10 := by
    split
    · exact lt_of_le_of_lt Nat.and_le_right (by norm_num)
    · norm_num
  have hfr : (if c.fullRange then 1 else 0) < 10 := by split <;> norm_num
  rw [av1Suffix, natToChars_lt10 _ hmono, natToChars_lt10 _ hcx, natToChars_lt10 _ hcy,
    natToChars_lt10 _ hcpos, natToChars_lt10 _ hfr,
    fmt02_eq _ hp, fmt02_eq _ ht, fmt02_eq _ hm]
  simp

theorem av1Suffix_length (b2 : Nat) (c : Colorimetry)
    (hp : c.primaries < 100) (ht : c.transfer < 100) (hm : c.matrix < 100) :
    (av1Suffix b2 c).length = 17 := by
  rw [av1Suffix_shape b2 c hp ht hm]
  rfl

theorem av1Base_length (b1 b2 : Nat) : (av1Base b1 b2).length = 13 := by
  rw [av1Base_shape b1 b2]
  rfl

/-- With no colorimetry the result is the 13-character base string
unchanged: the 17-character pattern cannot occur in it. -/
theorem av1_mime_none_eq (b0 b1 b2 : Nat) (rest : List Nat) :
    compute_av1_mime (b0 :: b1 :: b2 :: rest) none = some (String.mk (av1Base b1 b2)) := by
  show some (String.mk (dropAllOcc av1DefaultSuffix (av1Base b1 b2))) = _
  rw [dropAllOcc_short _ _ (by rw [av1Base_length]; decide)]

/-! ## Code bit-fiddling vs. spec bit positions -/

set_option maxRecDepth 4000 in
theorem profile_bits : ∀ n : Nat, n < 256 → (n >>> 5) &&& 7 = spec_profile n := by
  decide

set_option maxRecDepth 4000 in
theorem level_bits : ∀ n : Nat, n < 256 → n &&& 31 = spec_level n := by
  decide

set_option maxRecDepth 4000 in
theorem tier_bit : ∀ n : Nat, n < 256 → ((n >>> 7 = 0) ↔ n.testBit 7 = false) := by
  decide

set_option maxRecDepth 4000 in
theorem high_bit : ∀ n : Nat, n < 256 → (n >>> 6) &&& 1 = (if n.testBit 6 then 1 else 0) := by
  decide

set_option maxRecDepth 4000 in
theorem twelve_bit_val : ∀ n : Nat, n < 256 → (n >>> 5) &&& 1 = (if n.testBit 5 then 1 else 0) := by
  decide

theorem bitDepth_table : ∀ p : Nat, p < 8 → ∀ h : Nat, h < 2 → ∀ t : Nat, t < 2 →
    bitDepth p h t = if p = 2 ∧ h = 1 ∧ t = 1 then 12 else if h = 1 then 10 else 8 := by
  decide

/-- The base string built by the code equals the spec-side rendering. -/
theorem av1Base_eq_spec (b1 b2 : Nat) (hb1 : b1 < 256) (hb2 : b2 < 256) :
    av1Base b1 b2 = spec_av1Base b1 b2 := by
  rw [av1Base_shape]
  unfold spec_av1Base spec_bitDepth spec_tier
  rw [profile_bits b1 hb1, level_bits b1 hb1, high_bit b2 hb2, twelve_bit_val b2 hb2]
  have hp8 : spec_profile b1 < 8 := by
    unfold spec_profile
    split_ifs <;> norm_num
  rw [bitDepth_table _ hp8 _ (by split_ifs <;> norm_num) _ (by split_ifs <;> norm_num)]
  by_cases h7 : b2.testBit 7 <;> by_cases h6 : b2.testBit 6 <;> by_cases h5 : b2.testBit 5 <;>
    simp [h7, h6, h5, tier_bit b2 hb2]

/-! ## Claim C5 -/

/-- C5: For every configuration record of at least 3 bytes, the derived AV1
codec string with no color description is the base string
`av01.<profile>.<level><tier>.<bitdepth>` with profile from byte 1 bits 7:5,
level from byte 1 bits 4:0 zero-padded to two digits, tier `M`/`H` from
byte 2 bit 7, and the bit depth from the profile/high_bitdepth/twelve_bit
table rendered as two digits (all per the spec-side definitions);
in particular bytes `[0b1000_0001, 0b0000_0000, 0b0000_1100]` with no
color description yield `"av01.0.00M.08"`. -/
theorem c5_av1_base_string (b0 b1 b2 : Nat) (rest : List Nat)
    (hb1 : b1 < 256) (hb2 : b2 < 256) :
    compute_av1_mime (b0 :: b1 :: b2 :: rest) none = some (String.mk (spec_av1Base b1 b2)) ∧
    compute_av1_mime [129, 0, 12] none = some "av01.0.00M.08" := by
  constructor
  · rw [av1_mime_none_eq b0 b1 b2 rest, av1Base_eq_spec b1 b2 hb1 hb2]
  · rw [av1_mime_none_eq 129 0 12 []]
    decide

/-- Witness for C5 at the record `[0b1000_0001, 0b0000_0000, 0b0000_1100]`. -/
theorem c5_av1_base_string_witness :
    (0 : Nat) < 256 ∧ (12 : Nat) < 256 ∧
    (compute_av1_mime (129 :: 0 :: 12 :: []) none = some (String.mk (spec_av1Base 0 12)) ∧
      compute_av1_mime [129, 0, 12] none = some "av01.0.00M.08") :=
  ⟨by norm_num, by norm_num, c5_av1_base_string 129 0 12 [] (by norm_num) (by norm_num)⟩

/-! ## Claim C6 -/

/-- C6: With a color description, the derived AV1 codec string is the base
string with the color suffix appended, except that the suffix is dropped
(reducing exactly to the base string) precisely when the fully-expanded
suffix equals the default-values string `.0.110.01.01.01.0`; the string is
never altered in any other way. -/
theorem c6_av1_color_canonicalization (b0 b1 b2 : Nat) (rest : List Nat) (c : Colorimetry)
    (hp : c.primaries < 100) (ht : c.transfer < 100) (hm : c.matrix < 100) :
    compute_av1_mime (b0 :: b1 :: b2 :: rest) (some c) =
      some (String.mk (if av1Suffix b2 c = av1DefaultSuffix
        then av1Base b1 b2
        else av1Base b1 b2 ++ av1Suffix b2 c)) := by
  show some (String.mk (dropAllOcc av1DefaultSuffix (av1Base b1 b2 ++ av1Suffix b2 c))) = _
  have hbl : b1 &&& 31 ≤ 31 := Nat.and_le_right
  have hbd := bitDepth_lt ((b1 >>> 5) &&& 7) ((b2 >>> 6) &&& 1) ((b2 >>> 5) &&& 1)
  have hmain := av1_dropAllOcc_main
    (Nat.digitChar ((b1 >>> 5) &&& 7))
    (Nat.digitChar ((b1 &&& 31) / 10))
    (Nat.digitChar ((b1 &&& 31) % 10))
    (Nat.digitChar (bitDepth ((b1 >>> 5) &&& 7) ((b2 >>> 6) &&& 1) ((b2 >>> 5) &&& 1) / 10))
    (Nat.digitChar (bitDepth ((b1 >>> 5) &&& 7) ((b2 >>> 6) &&& 1) ((b2 >>> 5) &&& 1) % 10))
    (if b2 >>> 7 = 0 then 'M' else 'H')
    (['.', Nat.digitChar ((b2 >>> 4) &&& 1), '.', Nat.digitChar ((b2 >>> 3) &&& 1),
      Nat.digitChar ((b2 >>> 2) &&& 1),
      Nat.digitChar (if (b2 >>> 3) &&& 1 = 1 ∧ (b2 >>> 2) &&& 1 = 1 then b2 &&& 3 else 0), '.',
      Nat.digitChar (c.primaries / 10), Nat.digitChar (c.primaries % 10), '.',
      Nat.digitChar (c.transfer / 10), Nat.digitChar (c.transfer % 10), '.',
      Nat.digitChar (c.matrix / 10), Nat.digitChar (c.matrix % 10), '.',
      Nat.digitChar (if c.fullRange then 1 else 0)])
    (digitChar_ne_dot _ (lt_of_le_of_lt Nat.and_le_right (by norm_num)))
    (digitChar_ne_dot _ (by omega))
    (digitChar_ne_dot _ (Nat.mod_lt _ (by norm_num)))
    (digitChar_ne_dot _ (by omega))
    (digitChar_ne_dot _ (Nat.mod_lt _ (by norm_num)))
    (by split <;> decide)
    (by split <;> decide)
    rfl
  rw [av1Base_shape b1 b2, av1Suffix_shape b2 c hp ht hm, hmain]

/-- Witness for C6: the default-valued color description (limited-range
BT.709/BT.709/BT.709) on the same record collapses to the base string. -/
theorem c6_av1_color_canonicalization_witness :
    (1 : Nat) < 100 ∧
    (compute_av1_mime (129 :: 0 :: 12 :: []) (some ⟨1, 1, 1, false⟩) =
      some (String.mk (if av1Suffix 12 ⟨1, 1, 1, false⟩ = av1DefaultSuffix
        then av1Base 0 12
        else av1Base 0 12 ++ av1Suffix 12 ⟨1, 1, 1, false⟩))) ∧
    compute_av1_mime [129, 0, 12] (some ⟨1, 1, 1, false⟩) = some "av01.0.00M.08" := by
  have h := c6_av1_color_canonicalization 129 0 12 [] ⟨1, 1, 1, false⟩
    (by norm_num) (by norm_num) (by norm_num)
  refine ⟨by norm_num, h, ?_⟩
  rw [h]
  decide

/-! ## Helper lemmas: master-playlist coordinator -/

/-- Once written, a report only inserts its mime and emits nothing. -/
theorem reportCodec_written (s : CoordState) (name mime : String)
    (h : s.wroteManifest = true) :
    reportCodec s name mime = ({ s with allMimes := insertMime s.allMimes name mime }, none) := by
  unfold reportCodec tryWriteManifest
  simp [h]

/-- From a written state, a report sequence emits nothing, keeps the flag,
and folds every insert into the mapping. -/
theorem runReports_written (s : CoordState) (rs : List (String × String))
    (h : s.wroteManifest = true) :
    (runReports s rs).2 = [] ∧
    (runReports s rs).1.wroteManifest = true ∧
    (runReports s rs).1.allMimes = rs.foldl (fun m r => insertMime m r.1 r.2) s.allMimes := by
  induction rs generalizing s with
  | nil => simpa [runReports] using h
  | cons r rs ih =>
    have hstep := reportCodec_written s r.1 r.2 h
    have hrec := ih { s with allMimes := insertMime s.allMimes r.1 r.2 } h
    simp only [runReports, hstep, Option.toList_none, List.nil_append, List.foldl_cons]
    exact hrec

/-- Any report sequence from any state emits at most one master playlist. -/
theorem runReports_le_one (s : CoordState) (rs : List (String × String)) :
    ((runReports s rs).2).length ≤ 1 := by
  induction rs generalizing s with
  | nil => simp [runReports]
  | cons r rs ih =>
    by_cases hw : s.wroteManifest = true
    · have hstep := reportCodec_written s r.1 r.2 hw
      simp only [runReports, hstep, Option.toList_none, List.nil_append]
      exact ih _
    · simp only [runReports]
      rcases hrep : reportCodec s r.1 r.2 with ⟨s', w⟩
      cases w with
      | none =>
        simp only [Option.toList_none, List.nil_append]
        exact ih s'
      | some pl =>
        -- a write sets the flag, so the remaining reports emit nothing
        have hs' : s'.wroteManifest = true := by
          unfold reportCodec tryWriteManifest at hrep
          split at hrep
          · simp at hrep
          · simp only [writeManifest, Prod.mk.injEq] at hrep
            rw [← hrep.1]
        have := (runReports_written s' rs hs').1
        simp [this]

/-! ## Claim C1 -/

/-- C1: The master playlist is written at most once per process: any report
sequence emits at most one playlist, and once the `wrote_manifest` flag is
true every subsequent codec report is accepted (its mime is inserted into
the mapping) but emits no further master-playlist write. -/
theorem c1_master_written_at_most_once (s : CoordState) (rs : List (String × String))
    (h : s.wroteManifest = true) :
    (runReports s rs).2 = [] ∧
    (runReports s rs).1.wroteManifest = true ∧
    (runReports s rs).1.allMimes = rs.foldl (fun m r => insertMime m r.1 r.2) s.allMimes ∧
    (∀ s₀ : CoordState, ∀ rs₀ : List (String × String), ((runReports s₀ rs₀).2).length ≤ 1) := by
  refine ⟨(runReports_written s rs h).1, (runReports_written s rs h).2.1,
    (runReports_written s rs h).2.2, fun s₀ rs₀ => runReports_le_one s₀ rs₀⟩

/-- Witness for C1: a written coordinator accepts a repeated report for
`av1_0` and a fresh report without writing again. -/
theorem c1_master_written_at_most_once_witness :
    c1Ex.wroteManifest = true ∧
    ((runReports c1Ex [("av1_0", "av01.0.05M.08"), ("h264_1", "avc1.64001f")]).2 = [] ∧
      (runReports c1Ex [("av1_0", "av01.0.05M.08"), ("h264_1", "avc1.64001f")]).1.wroteManifest = true ∧
      (runReports c1Ex [("av1_0", "av01.0.05M.08"), ("h264_1", "avc1.64001f")]).1.allMimes =
        [("av1_0", "av01.0.05M.08"), ("h264_1", "avc1.64001f")].foldl
          (fun m r => insertMime m r.1 r.2) c1Ex.allMimes ∧
      (∀ s₀ : CoordState, ∀ rs₀ : List (String × String), ((runReports s₀ rs₀).2).length ≤ 1)) :=
  ⟨rfl, c1_master_written_at_most_once c1Ex
    [("av1_0", "av01.0.05M.08"), ("h264_1", "avc1.64001f")] rfl⟩

/-! ## Claim C10 -/

/-- C10: If the master playlist is written while some video rendition's
name has no entry in the codec mapping, the write still succeeds, the
rendition is not skipped (one variant per video rendition, in order), and
its variant entry carries `codecs = none` while the other attributes are
filled in. -/
theorem c10_missing_codec_variant (s : CoordState) (i : Nat)
    (hi : i < s.videoStreams.length)
    (hnone : lookupMime s.allMimes (s.videoStreams[i]).name = none)
    (hw : s.wroteManifest = false)
    (hc : s.videoStreams.length + s.audioStreams.length ≤ s.allMimes.length) :
    (tryWriteManifest s).2 = some (buildMasterPlaylist s) ∧
    (tryWriteManifest s).1.wroteManifest = true ∧
    (buildMasterPlaylist s).variants.length = s.videoStreams.length ∧
    ∀ hv : i < (buildMasterPlaylist s).variants.length,
      (buildMasterPlaylist s).variants[i].codecs = none ∧
      (buildMasterPlaylist s).variants[i].uri = (s.videoStreams[i]).name ++ "/manifest.m3u8" ∧
      (buildMasterPlaylist s).variants[i].bandwidth = (s.videoStreams[i]).bitrate ∧
      (buildMasterPlaylist s).variants[i].resolution =
        some ((s.videoStreams[i]).width, (s.videoStreams[i]).height) := by
  have hcond : ¬ (s.wroteManifest = true ∨
      s.allMimes.length < s.videoStreams.length + s.audioStreams.length) := by
    rintro (hww | hlt)
    · rw [hw] at hww
      exact Bool.false_ne_true hww
    · omega
  refine ⟨?_, ?_, ?_, ?_⟩
  · unfold tryWriteManifest
    rw [if_neg (by simpa using hcond)]
    rfl
  · unfold tryWriteManifest
    rw [if_neg (by simpa using hcond)]
    rfl
  · simp [buildMasterPlaylist]
  · intro hv
    simp [buildMasterPlaylist, hnone]

/-- Witness for C10: one video rendition with no codec entry and an
unrelated entry filling the expected count. -/
theorem c10_missing_codec_variant_witness :
    (0 < c10Ex.videoStreams.length ∧
      lookupMime c10Ex.allMimes (c10Ex.videoStreams[0].name) = none ∧
      c10Ex.wroteManifest = false ∧
      c10Ex.videoStreams.length + c10Ex.audioStreams.length ≤ c10Ex.allMimes.length) ∧
    (tryWriteManifest c10Ex).2 = some (buildMasterPlaylist c10Ex) ∧
    (tryWriteManifest c10Ex).1.wroteManifest = true ∧
    (buildMasterPlaylist c10Ex).variants.length = c10Ex.videoStreams.length ∧
    ∀ hv : 0 < (buildMasterPlaylist c10Ex).variants.length,
      (buildMasterPlaylist c10Ex).variants[0].codecs = none ∧
      (buildMasterPlaylist c10Ex).variants[0].uri = (c10Ex.videoStreams[0]).name ++ "/manifest.m3u8" ∧
      (buildMasterPlaylist c10Ex).variants[0].bandwidth = (c10Ex.videoStreams[0]).bitrate ∧
      (buildMasterPlaylist c10Ex).variants[0].resolution =
        some ((c10Ex.videoStreams[0]).width, (c10Ex.videoStreams[0]).height) :=
  ⟨⟨by decide, by decide, by decide, by decide⟩,
    c10_missing_codec_variant c10Ex 0 (by decide) (by decide) (by decide) (by decide)⟩

/-! ## Helper lemmas: eviction and deletion loops -/

/-- The eviction loop pops a prefix of the window (oldest first), bumps the
media sequence once per pop, enqueues one pending deletion per pop with
`removal_time = date_time + 20s`, and leaves at most five segments. -/
theorem evictLoop_spec (segs : List Segment) (ms : Nat) (tr : List UnreffedSegment) :
    segs = (evictLoop segs ms tr).evicted ++ (evictLoop segs ms tr).segments ∧
    (evictLoop segs ms tr).mediaSequence = ms + (evictLoop segs ms tr).evicted.length ∧
    (evictLoop segs ms tr).trimmed = tr ++ (evictLoop segs ms tr).evicted.map toUnreffed ∧
    (evictLoop segs ms tr).segments.length = min segs.length 5 := by
  induction segs generalizing ms tr with
  | nil => simp [evictLoop]
  | cons seg rest ih =>
    by_cases h : (seg :: rest).length > 5
    · obtain ⟨e1, e2, e3, e4⟩ := ih (ms + 1) (tr ++ [toUnreffed seg])
      simp only [evictLoop, if_pos h]
      refine ⟨?_, ?_, ?_, ?_⟩
      · rw [List.cons_append, ← e1]
      · rw [e2]
        simp only [List.length_cons]
        omega
      · rw [e3]
        simp
      · rw [e4]
        simp only [List.length_cons] at h ⊢
        omega
    · simp only [evictLoop, if_neg h]
      simp only [List.length_cons] at h
      refine ⟨by simp, by simp, by simp, ?_⟩
      simp only [List.length_cons]
      omega

/-- The deletion loop consumes exactly the longest prefix of the queue
whose removal times precede the oldest segment's start, in order, and
leaves the rest. -/
theorem deleteLoop_spec (d : Int) (q : List UnreffedSegment) (acc : List String)
    (q' : List UnreffedSegment) (del : List String)
    (h : deleteLoop (some d) q acc = some (q', del)) :
    del = acc ++ (q.takeWhile (fun u => u.removalTime < d)).map (·.path) ∧
    q' = q.dropWhile (fun u => u.removalTime < d) := by
  induction q generalizing acc with
  | nil =>
    simp only [deleteLoop, Option.some.injEq, Prod.mk.injEq] at h
    simp [← h.1, ← h.2]
  | cons u rest ih =>
    simp only [deleteLoop] at h
    by_cases hlt : u.removalTime < d
    · rw [if_pos hlt] at h
      obtain ⟨h1, h2⟩ := ih (acc ++ [u.path]) h
      rw [List.takeWhile_cons_of_pos (by simpa using hlt),
        List.dropWhile_cons_of_pos (by simpa using hlt)]
      refine ⟨?_, h2⟩
      rw [h1]
      simp
    · rw [if_neg hlt] at h
      simp only [Option.some.injEq, Prod.mk.injEq] at h
      rw [List.takeWhile_cons_of_neg (by simpa using hlt),
        List.dropWhile_cons_of_neg (by simpa using hlt)]
      simp [← h.1, ← h.2]

/-- On a queue sorted by removal time, membership in the consumed prefix is
equivalent to the removal time preceding the oldest segment's start. -/
theorem mem_takeWhile_iff_sorted (d : Int) :
    ∀ q : List UnreffedSegment,
      q.Pairwise (fun a b => a.removalTime ≤ b.removalTime) →
      ∀ u ∈ q, (u ∈ q.takeWhile (fun v => v.removalTime < d) ↔ u.removalTime < d) := by
  intro q
  induction q with
  | nil => intro _ u hu; simp at hu
  | cons x rest ih =>
    intro hsort u hu
    rw [List.pairwise_cons] at hsort
    by_cases hx : x.removalTime < d
    · rcases List.mem_cons.mp hu with rfl | hmem
      · rw [List.takeWhile_cons_of_pos (by simpa using hx)]
        simp [hx]
      · rw [List.takeWhile_cons_of_pos (by simpa using hx), List.mem_cons]
        constructor
        · rintro (rfl | h2)
          · exact hx
          · exact (ih hsort.2 u hmem).mp h2
        · intro hud
          exact Or.inr ((ih hsort.2 u hmem).mpr hud)
    · rw [List.takeWhile_cons_of_neg (by simpa using hx)]
      simp only [List.not_mem_nil, false_iff]
      intro hud
      rcases List.mem_cons.mp hu with rfl | hmem
      · exact hx hud
      · exact hx (lt_of_le_of_lt (hsort.1 u hmem) hud)

/-- `trim_segments` summary: the evicted segments are a prefix of the
window, the media sequence counts them, at most five segments remain, the
counters and anchors are otherwise untouched, and the deletion loop runs
over the queue extended by the new pending deletions. -/
theorem trimSegments_spec (s1 s2 : StreamState) (ev : List Segment) (del : List String)
    (h : trimSegments s1 = some (s2, ev, del)) :
    s1.segments = ev ++ s2.segments ∧
    s2.mediaSequence = s1.mediaSequence + ev.length ∧
    s2.segments.length = min s1.segments.length 5 ∧
    s2.segmentIndex = s1.segmentIndex ∧
    s2.startDateTime = s1.startDateTime ∧
    s2.startTime = s1.startTime ∧
    deleteLoop (s2.segments.head?.map (·.dateTime))
      (s1.trimmedSegments ++ ev.map toUnreffed) [] = some (s2.trimmedSegments, del) := by
  obtain ⟨e1, e2, e3, e4⟩ := evictLoop_spec s1.segments s1.mediaSequence s1.trimmedSegments
  unfold trimSegments at h
  dsimp only [] at h
  split at h
  · exact absurd h (by simp)
  · rename_i q dl hdl
    simp only [Option.some.injEq, Prod.mk.injEq] at h
    obtain ⟨hs2, hev, hdel⟩ := h
    subst hev hdel
    rw [← hs2]
    dsimp only
    rw [e3] at hdl
    exact ⟨e1, e2, e4, rfl, rfl, rfl, hdl⟩

/-! ## Claim C3 (corrected) -/

/-- C3 counterexample: in a six-segment window of 2-second segments, the
pending deletion enqueued for the popped oldest segment (start 0, duration
2s) has `removal_time = 20s`, not `0 + 2s + 20s` as the claim states. -/
theorem c3_eviction_counterexample :
    (evictLoop c3Segs 0 []).evicted = [⟨0, 2000000000, "00000.mp4"⟩] ∧
    (evictLoop c3Segs 0 []).trimmed = [⟨20000000000, "00000.mp4"⟩] ∧
    (evictLoop c3Segs 0 []).trimmed ≠
      [⟨(0 : Int) + 2000000000 + 20000000000, "00000.mp4"⟩] ∧
    ¬ ((20000000000 : Int) = 0 + 2000000000 + 20000000000) :=
  ⟨by decide, by decide, by decide, by decide⟩

/-- C3 (amended): whenever the window exceeds five entries during a
manifest update, oldest segments are popped from the front, the media
sequence is incremented by one per pop, and each popped segment is enqueued
as a pending deletion with `removal_time = wall_clock_start + 20s` (the
retention margin, with no duration term). -/
theorem c3_eviction_amended (segs : List Segment) (ms : Nat) (tr : List UnreffedSegment)
    (h : segs.length > 5) :
    (evictLoop segs ms tr).evicted ≠ [] ∧
    segs = (evictLoop segs ms tr).evicted ++ (evictLoop segs ms tr).segments ∧
    (evictLoop segs ms tr).mediaSequence = ms + (evictLoop segs ms tr).evicted.length ∧
    (evictLoop segs ms tr).trimmed =
      tr ++ (evictLoop segs ms tr).evicted.map
        (fun seg => ⟨seg.dateTime + 20000000000, seg.path⟩) := by
  obtain ⟨e1, e2, e3, e4⟩ := evictLoop_spec segs ms tr
  refine ⟨?_, e1, e2, e3⟩
  intro hempty
  rw [hempty, List.nil_append] at e1
  rw [← e1] at e4
  omega

/-- Witness for the amended C3 at the six-segment window. -/
theorem c3_eviction_amended_witness :
    c3Segs.length > 5 ∧
    ((evictLoop c3Segs 0 []).evicted ≠ [] ∧
      c3Segs = (evictLoop c3Segs 0 []).evicted ++ (evictLoop c3Segs 0 []).segments ∧
      (evictLoop c3Segs 0 []).mediaSequence = 0 + (evictLoop c3Segs 0 []).evicted.length ∧
      (evictLoop c3Segs 0 []).trimmed =
        [] ++ (evictLoop c3Segs 0 []).evicted.map
          (fun seg => ⟨seg.dateTime + 20000000000, seg.path⟩)) :=
  ⟨by decide, c3_eviction_amended c3Segs 0 [] (by decide)⟩

/-! ## Claim C4 -/

/-- C4: During a manifest update, a pending-deletion entry's file is
deleted exactly when its `removal_time` is strictly earlier than the
`wall_clock_start` of the current oldest active segment (given the queue's
removal-time order, which insertion order guarantees for monotone
timestamps): the queue is scanned front to back, the consumed entries are
the longest such prefix (the scan stops at the first unsafe entry), and an
entry is consumed iff its removal time precedes the oldest segment's
start. -/
theorem c4_pending_deletion_consumption (s s' : StreamState) (ev : List Segment)
    (del : List String) (front : Segment)
    (hrun : trimSegments s = some (s', ev, del))
    (hfront : s'.segments.head? = some front)
    (hsort : (s.trimmedSegments ++ ev.map toUnreffed).Pairwise
      (fun a b => a.removalTime ≤ b.removalTime)) :
    del = ((s.trimmedSegments ++ ev.map toUnreffed).takeWhile
      (fun u => u.removalTime < front.dateTime)).map (·.path) ∧
    s'.trimmedSegments = (s.trimmedSegments ++ ev.map toUnreffed).dropWhile
      (fun u => u.removalTime < front.dateTime) ∧
    ∀ u ∈ s.trimmedSegments ++ ev.map toUnreffed,
      (u ∈ (s.trimmedSegments ++ ev.map toUnreffed).takeWhile
        (fun v => v.removalTime < front.dateTime) ↔ u.removalTime < front.dateTime) := by
  have hdl := (trimSegments_spec s s' ev del hrun).2.2.2.2.2.2
  rw [hfront] at hdl
  simp only [Option.map_some'] at hdl
  obtain ⟨h1, h2⟩ := deleteLoop_spec front.dateTime _ [] _ _ hdl
  refine ⟨by simpa using h1, h2, ?_⟩
  intro u hu
  exact mem_takeWhile_iff_sorted front.dateTime _ hsort u hu

/-- Witness for C4: from `c4State` one segment is evicted, the two expired
queue entries are deleted in order, and the fresh entry is retained. -/
theorem c4_pending_deletion_consumption_witness :
    (trimSegments c4State = some (c4StateAfter, c4Evicted, ["00005.mp4", "00006.mp4"]) ∧
      c4StateAfter.segments.head? = some c4Front ∧
      (c4State.trimmedSegments ++ c4Evicted.map toUnreffed).Pairwise
        (fun a b => a.removalTime ≤ b.removalTime)) ∧
    (["00005.mp4", "00006.mp4"] =
        ((c4State.trimmedSegments ++ c4Evicted.map toUnreffed).takeWhile
          (fun u => u.removalTime < c4Front.dateTime)).map (·.path) ∧
      c4StateAfter.trimmedSegments =
        (c4State.trimmedSegments ++ c4Evicted.map toUnreffed).dropWhile
          (fun u => u.removalTime < c4Front.dateTime) ∧
      ∀ u ∈ c4State.trimmedSegments ++ c4Evicted.map toUnreffed,
        (u ∈ (c4State.trimmedSegments ++ c4Evicted.map toUnreffed).takeWhile
          (fun v => v.removalTime < c4Front.dateTime) ↔ u.removalTime < c4Front.dateTime)) :=
  ⟨⟨by decide, by decide, by decide⟩,
    c4_pending_deletion_consumption c4State c4StateAfter c4Evicted
      ["00005.mp4", "00006.mp4"] c4Front (by decide) (by decide) (by decide)⟩

/-! ## Helper lemmas: the fragment-group callback -/

theorem updateManifest_spec (s1 s2 : StreamState) (ev : List Segment) (del : List String)
    (pl : MediaPlaylistM) (h : updateManifest s1 = some (s2, ev, del, pl)) :
    trimSegments s1 = some (s2, ev, del) ∧ pl = buildPlaylist s2 := by
  unfold updateManifest at h
  split at h
  · exact absurd h (by simp)
  · rename_i s2' ev' del' hts
    simp only [Option.some.injEq, Prod.mk.injEq] at h
    obtain ⟨h1, h2, h3, h4⟩ := h
    subst h1 h2 h3 h4
    exact ⟨hts, rfl⟩

/-- Window-size and counter bookkeeping of a single (shortened) buffer
list: a pure header update changes nothing; a media fragment appends one
segment, bumps the index, and then trims. -/
theorem processMedia_inv (s : StreamState) (clock : ClockReads)
    (hdrOut : Option (String × List Nat)) (bufs : List BufferM)
    (s' : StreamState) (out : StepOutput)
    (h : processMedia s clock hdrOut bufs = some (s', out)) :
    (s.segments.length ≤ 5 → s'.segments.length ≤ 5) ∧
    s'.mediaSequence = s.mediaSequence + out.evicted.length ∧
    (s.mediaSequence + s.segments.length = s.segmentIndex →
      s'.mediaSequence + s'.segments.length = s'.segmentIndex) := by
  cases bufs with
  | nil =>
    simp only [processMedia, Option.some.injEq, Prod.mk.injEq] at h
    obtain ⟨rfl, rfl⟩ := h
    exact ⟨fun x => x, by simp, fun x => x⟩
  | cons first2 rest2 =>
    simp only [processMedia] at h
    split at h
    · exact absurd h (by simp)
    · split at h
      · exact absurd h (by simp)
      · rename_i sdt hsdt
        split at h
        · exact absurd h (by simp)
        · split at h
          · exact absurd h (by simp)
          · rename_i s2 ev del pl hum
            simp only [Option.some.injEq, Prod.mk.injEq] at h
            obtain ⟨rfl, rfl⟩ := h
            obtain ⟨hts, -⟩ := updateManifest_spec _ _ _ _ _ hum
            obtain ⟨t1, t2, t3, t4, -, -, -⟩ := trimSegments_spec _ _ _ _ hts
            dsimp only at t1 t2 t3 t4
            simp only [List.length_append, List.length_cons, List.length_nil] at t3
            have hlen := congrArg List.length t1
            simp only [List.length_append, List.length_cons, List.length_nil] at hlen
            refine ⟨fun h5 => by omega, by simpa using t2, fun hc => by omega⟩

/-- Lift `processMedia_inv` through the header dispatch. -/
theorem processGroup_inv (s : StreamState) (g : GroupInput)
    (s' : StreamState) (out : StepOutput)
    (h : processGroup s g = some (s', out)) :
    (s.segments.length ≤ 5 → s'.segments.length ≤ 5) ∧
    s'.mediaSequence = s.mediaSequence + out.evicted.length ∧
    (s.mediaSequence + s.segments.length = s.segmentIndex →
      s'.mediaSequence + s'.segments.length = s'.segmentIndex) := by
  unfold processGroup at h
  split at h
  · exact absurd h (by simp)
  · split at h
    · exact absurd h (by simp)
    · split at h
      · exact processMedia_inv _ _ _ _ _ _ h
      · exact processMedia_inv _ _ _ _ _ _ h

/-- The run-level invariants: bounded window, media sequence equal to the
number of evictions, and `media_sequence + window = segment_index`. -/
theorem runGroups_inv (gs : List GroupInput) (s s' : StreamState) (outs : List StepOutput)
    (h : runGroups s gs = some (s', outs)) :
    (s.segments.length ≤ 5 → s'.segments.length ≤ 5) ∧
    s'.mediaSequence = s.mediaSequence + (outs.map (fun o => o.evicted.length)).sum ∧
    (s.mediaSequence + s.segments.length = s.segmentIndex →
      s'.mediaSequence + s'.segments.length = s'.segmentIndex) := by
  induction gs generalizing s outs with
  | nil =>
    simp only [runGroups, Option.some.injEq, Prod.mk.injEq] at h
    obtain ⟨rfl, rfl⟩ := h
    exact ⟨fun x => x, by simp, fun x => x⟩
  | cons g gs ih =>
    simp only [runGroups] at h
    split at h
    · exact absurd h (by simp)
    · rename_i sMid out hpg
      split at h
      · exact absurd h (by simp)
      · rename_i sEnd outsRest hrg
        simp only [Option.some.injEq, Prod.mk.injEq] at h
        obtain ⟨rfl, rfl⟩ := h
        obtain ⟨a1, a2, a3⟩ := processGroup_inv s g sMid out hpg
        obtain ⟨b1, b2, b3⟩ := ih sMid outsRest hrg
        refine ⟨fun h5 => b1 (a1 h5), ?_, fun hc => b3 (a3 hc)⟩
        simp only [List.map_cons, List.sum_cons]
        omega

/-! ## Claim C2 -/

/-- C2: Starting from the initial publisher state, after any successfully
processed sequence of fragment groups the active window holds at most five
segments and `media_sequence` equals the total number of segments ever
evicted from the window. -/
theorem c2_window_bound_and_media_sequence (gs : List GroupInput) (s' : StreamState)
    (outs : List StepOutput) (h : runGroups initState gs = some (s', outs)) :
    s'.segments.length ≤ 5 ∧
    s'.mediaSequence = (outs.map (fun o => o.evicted.length)).sum := by
  obtain ⟨a1, a2, -⟩ := runGroups_inv gs initState s' outs h
  exact ⟨a1 (by simp [initState]), by simpa [initState] using a2⟩

/-- Witness for C2 after one media fragment group. -/
theorem c2_window_bound_and_media_sequence_witness :
    runGroups initState [exGroup] = some (exStateAfter, [exOutput]) ∧
    (exStateAfter.segments.length ≤ 5 ∧
      exStateAfter.mediaSequence = ([exOutput].map (fun o => o.evicted.length)).sum) :=
  ⟨by decide, c2_window_bound_and_media_sequence [exGroup] exStateAfter [exOutput] (by decide)⟩

/-! ## Claim C9 -/

/-- C9: In every state reachable from the initial publisher state,
`media_sequence` plus the current window size equals `segment_index`: every
created segment is either still in the window or counted as evicted exactly
once. -/
theorem c9_created_equals_windowed_plus_evicted (gs : List GroupInput) (s' : StreamState)
    (outs : List StepOutput) (h : runGroups initState gs = some (s', outs)) :
    s'.mediaSequence + s'.segments.length = s'.segmentIndex :=
  (runGroups_inv gs initState s' outs h).2.2 (by simp [initState])

/-- Witness for C9 after one media fragment group. -/
theorem c9_created_equals_windowed_plus_evicted_witness :
    runGroups initState [exGroup] = some (exStateAfter, [exOutput]) ∧
    exStateAfter.mediaSequence + exStateAfter.segments.length = exStateAfter.segmentIndex :=
  ⟨by decide,
    c9_created_equals_windowed_plus_evicted [exGroup] exStateAfter [exOutput] (by decide)⟩

/-! ## Claim C8 -/

/-- C8: A fragment group consisting of exactly one buffer carrying both
DISCONTINUITY and HEADER publishes that buffer's payload as the
initialization artifact under the fixed name `init.mp4` and stops: no
segment, no playlist, no deletions, no evictions, and the state (window,
pending queue, media_sequence, segment_index, clock anchors) is returned
unchanged. -/
theorem c8_header_only_group (s : StreamState) (b : BufferM) (clk : ClockReads)
    (hd : b.delta = false) (hdisc : b.discont = true) (hhdr : b.header = true) :
    processGroup s ⟨[b], clk⟩ =
      some (s, ⟨some ("init.mp4", b.payload), none, none, [], []⟩) := by
  unfold processGroup
  simp [hd, hdisc, hhdr, processMedia]

/-- Witness for C8 with a concrete header buffer. -/
theorem c8_header_only_group_witness :
    (false = false ∧ true = true ∧ true = true) ∧
    processGroup exStateAfter ⟨[⟨false, true, true, 0, 0, [9, 9]⟩], exClock⟩ =
      some (exStateAfter, ⟨some ("init.mp4", [9, 9]), none, none, [], []⟩) :=
  ⟨⟨rfl, rfl, rfl⟩,
    c8_header_only_group exStateAfter ⟨false, true, true, 0, 0, [9, 9]⟩ exClock rfl rfl rfl⟩

/-! ## Claim C7 -/

/-- `(ns + 1e9 - 1) / 1e9` in `Nat` is the rational ceiling of `ns / 1e9`:
the code's target duration is the newest duration rounded up to whole
seconds. -/
theorem ceilDiv_cast (d : Nat) :
    (((d + 1000000000 - 1) / 1000000000 : Nat) : ℤ) = ⌈(d : ℚ) / 1000000000⌉ := by
  set k := (d + 1000000000 - 1) / 1000000000 with hk
  have hk1 : d ≤ k * 1000000000 := by omega
  have hk2 : k * 1000000000 < d + 1000000000 := by omega
  rw [eq_comm, Int.ceil_eq_iff]
  constructor
  · rw [lt_div_iff₀ (by norm_num)]
    have h2q : (k : ℚ) * 1000000000 < (d : ℚ) + 1000000000 := by exact_mod_cast hk2
    push_cast
    linarith
  · rw [div_le_iff₀ (by norm_num)]
    exact_mod_cast hk1

/-- A published playlist is `buildPlaylist` of the post-trim state, whose
window is non-empty. -/
theorem processMedia_manifest (s : StreamState) (clock : ClockReads)
    (hdrOut : Option (String × List Nat)) (bufs : List BufferM)
    (s' : StreamState) (out : StepOutput) (pl : MediaPlaylistM)
    (h : processMedia s clock hdrOut bufs = some (s', out))
    (hpl : out.publishedManifest = some pl) :
    pl = buildPlaylist s' ∧ s'.segments ≠ [] := by
  cases bufs with
  | nil =>
    simp only [processMedia, Option.some.injEq, Prod.mk.injEq] at h
    obtain ⟨rfl, rfl⟩ := h
    simp at hpl
  | cons first2 rest2 =>
    simp only [processMedia] at h
    split at h
    · exact absurd h (by simp)
    · split at h
      · exact absurd h (by simp)
      · rename_i sdt hsdt
        split at h
        · exact absurd h (by simp)
        · split at h
          · exact absurd h (by simp)
          · rename_i s2 ev del pl2 hum
            simp only [Option.some.injEq, Prod.mk.injEq] at h
            obtain ⟨rfl, rfl⟩ := h
            simp only [Option.some.injEq] at hpl
            obtain ⟨hts, hpl2⟩ := updateManifest_spec _ _ _ _ _ hum
            obtain ⟨-, -, t3, -, -, -, -⟩ := trimSegments_spec _ _ _ _ hts
            dsimp only at t3
            simp only [List.length_append, List.length_cons, List.length_nil] at t3
            refine ⟨by rw [← hpl, hpl2], ?_⟩
            intro hemp
            rw [hemp] at t3
            simp at t3
            omega
  
/-- Lift `processMedia_manifest` through the header dispatch. -/
theorem processGroup_manifest (s : StreamState) (g : GroupInput)
    (s' : StreamState) (out : StepOutput) (pl : MediaPlaylistM)
    (h : processGroup s g = some (s', out))
    (hpl : out.publishedManifest = some pl) :
    pl = buildPlaylist s' ∧ s'.segments ≠ [] := by
  unfold processGroup at h
  split at h
  · exact absurd h (by simp)
  · split at h
    · exact absurd h (by simp)
    · split at h
      · exact processMedia_manifest _ _ _ _ _ _ _ h hpl
      · exact processMedia_manifest _ _ _ _ _ _ _ h hpl

/-- C7: Every media playlist published after a segment is appended carries
target duration equal to the newest segment's duration rounded up to whole
seconds, the current media_sequence, version 7, independent_segments, no
end_list, and lists exactly the window's segments oldest-first with the
`EXT-X-MAP init.mp4` reference and the program date time attached only to
the first entry. -/
theorem c7_media_playlist_shape (s : StreamState) (g : GroupInput) (s' : StreamState)
    (out : StepOutput) (pl : MediaPlaylistM)
    (h : processGroup s g = some (s', out)) (hpl : out.publishedManifest = some pl) :
    (∃ newest, s'.segments.getLast? = some newest ∧
      (pl.targetDuration : ℤ) = ⌈(newest.duration : ℚ) / 1000000000⌉) ∧
    pl.mediaSequence = s'.mediaSequence ∧
    pl.version = some 7 ∧
    pl.independentSegments = true ∧
    pl.endList = false ∧
    pl.segments.length = s'.segments.length ∧
    ∀ i, (hi : i < pl.segments.length) → (hi' : i < s'.segments.length) →
      pl.segments[i] =
        ⟨(s'.segments[i]).path, (s'.segments[i]).duration,
          if i = 0 then some "init.mp4" else none,
          if i = 0 then some (s'.segments[i]).dateTime else none⟩ := by
  obtain ⟨hplb, hne⟩ := processGroup_manifest s g s' out pl h hpl
  subst hplb
  refine ⟨?_, rfl, rfl, rfl, rfl, ?_, ?_⟩
  · cases hlast : s'.segments.getLast? with
    | none => exact absurd (List.getLast?_eq_none_iff.mp hlast) hne
    | some newest =>
      refine ⟨newest, rfl, ?_⟩
      simp only [buildPlaylist, hlast]
      exact ceilDiv_cast newest.duration
  · simp [buildPlaylist]
  · intro i hi hi'
    simp only [buildPlaylist]
    rw [List.getElem_map, List.getElem_enum]

/-- Witness for C7 after one media fragment group. -/
theorem c7_media_playlist_shape_witness :
    (runGroups initState [exGroup] = some (exStateAfter, [exOutput]) ∧
      processGroup initState exGroup = some (exStateAfter, exOutput) ∧
      exOutput.publishedManifest = some exPlaylist) ∧
    ((∃ newest, exStateAfter.segments.getLast? = some newest ∧
        (exPlaylist.targetDuration : ℤ) = ⌈(newest.duration : ℚ) / 1000000000⌉) ∧
      exPlaylist.mediaSequence = exStateAfter.mediaSequence ∧
      exPlaylist.version = some 7 ∧
      exPlaylist.independentSegments = true ∧
      exPlaylist.endList = false ∧
      exPlaylist.segments.length = exStateAfter.segments.length ∧
      ∀ i, (hi : i < exPlaylist.segments.length) → (hi' : i < exStateAfter.segments.length) →
        exPlaylist.segments[i] =
          ⟨(exStateAfter.segments[i]).path, (exStateAfter.segments[i]).duration,
            if i = 0 then some "init.mp4" else none,
            if i = 0 then some (exStateAfter.segments[i]).dateTime else none⟩) :=
  ⟨⟨by decide, by decide, by decide⟩,
    c7_media_playlist_shape initState exGroup exStateAfter exOutput exPlaylist
      (by decide) (by decide)⟩
